import Mathlib

/-!
Verification of the reconciliation / query / ingestion core of
`candidate_solution.py` (a small Pokemon database service).

The Python program manipulates ASCII names stored in an SQLite database.
We shallowly embed the relevant string primitives:

* `lowerC` / `upperC` — ASCII case maps, matching SQLite `LOWER(...)` and
  Python `str.lower()` / `str.upper()` on the ASCII range (non-ASCII
  characters are left unchanged, as SQLite's `LOWER` does);
* `pyStrip` — Python `str.strip()` (drop ASCII whitespace at both ends);
* `pyTitle` — Python `str.title()` (upper-case every cased character that
  follows a non-cased character, lower-case the other cased characters).
-/

/-- Case table applied character by character: first matching key wins,
characters absent from the table are unchanged. -/
def applyCaseMap (m : List (Char × Char)) (c : Char) : Char :=
  match m with
  | [] => c
  | (a, b) :: rest => if c = a then b else applyCaseMap rest c

theorem applyCaseMap_spec (m : List (Char × Char)) (c : Char) :
    applyCaseMap m c = c ∨ c ∈ m.map (·.1) := by
  induction m with
  | nil => exact Or.inl rfl
  | cons p rest ih =>
    rcases p with ⟨a, b⟩
    by_cases h : c = a
    · exact Or.inr (by simp [h])
    · rcases ih with h' | h'
      · exact Or.inl (by simp [applyCaseMap, h, h'])
      · exact Or.inr (by simp [h'])

/-- Lower-case to upper-case ASCII pairs. -/
def azUp : List (Char × Char) :=
  [('a','A'),('b','B'),('c','C'),('d','D'),('e','E'),('f','F'),('g','G'),
   ('h','H'),('i','I'),('j','J'),('k','K'),('l','L'),('m','M'),('n','N'),
   ('o','O'),('p','P'),('q','Q'),('r','R'),('s','S'),('t','T'),('u','U'),
   ('v','V'),('w','W'),('x','X'),('y','Y'),('z','Z')]

/-- Upper-case to lower-case ASCII pairs. -/
def azDown : List (Char × Char) :=
  [('A','a'),('B','b'),('C','c'),('D','d'),('E','e'),('F','f'),('G','g'),
   ('H','h'),('I','i'),('J','j'),('K','k'),('L','l'),('M','m'),('N','n'),
   ('O','o'),('P','p'),('Q','q'),('R','r'),('S','s'),('T','t'),('U','u'),
   ('V','v'),('W','w'),('X','x'),('Y','y'),('Z','z')]

/-- ASCII `toupper`, as applied by Python's `str.title()`. -/
def upperC (c : Char) : Char := applyCaseMap azUp c

/-- ASCII `tolower`, the character map behind SQLite `LOWER` and Python
`str.lower()` on ASCII data. -/
def lowerC (c : Char) : Char := applyCaseMap azDown c

/-- ASCII letter test ("cased character" for Python's `str.title()`). -/
def isAlphaC (c : Char) : Bool :=
  (azUp.map (·.1)).contains c || (azDown.map (·.1)).contains c

/-- Python `str.strip()` whitespace set (ASCII part). -/
def wsChars : List Char := [' ', '\t', '\n', '\r', '\x0b', '\x0c']

/-- Whitespace test used by `pyStrip`. -/
def isWsC (c : Char) : Bool := wsChars.contains c

theorem upperC_spec (c : Char) : upperC c = c ∨ c ∈ azUp.map (·.1) :=
  applyCaseMap_spec azUp c

theorem lowerC_spec (c : Char) : lowerC c = c ∨ c ∈ azDown.map (·.1) :=
  applyCaseMap_spec azDown c

theorem upperC_upperC (c : Char) : upperC (upperC c) = upperC c := by
  rcases upperC_spec c with h | h
  · rw [h, h]
  · fin_cases h <;> decide

theorem lowerC_lowerC (c : Char) : lowerC (lowerC c) = lowerC c := by
  rcases lowerC_spec c with h | h
  · rw [h, h]
  · fin_cases h <;> decide

theorem lowerC_upperC (c : Char) : lowerC (upperC c) = lowerC c := by
  rcases upperC_spec c with h | h
  · rw [h]
  · fin_cases h <;> decide

theorem isAlphaC_upperC (c : Char) : isAlphaC (upperC c) = isAlphaC c := by
  rcases upperC_spec c with h | h
  · rw [h]
  · fin_cases h <;> decide

theorem isAlphaC_lowerC (c : Char) : isAlphaC (lowerC c) = isAlphaC c := by
  rcases lowerC_spec c with h | h
  · rw [h]
  · fin_cases h <;> decide

theorem isWsC_upperC (c : Char) : isWsC (upperC c) = isWsC c := by
  rcases upperC_spec c with h | h
  · rw [h]
  · fin_cases h <;> decide

theorem isWsC_lowerC (c : Char) : isWsC (lowerC c) = isWsC c := by
  rcases lowerC_spec c with h | h
  · rw [h]
  · fin_cases h <;> decide

/-- One step of Python `str.title()`: `prev` records whether the previous
character was cased. -/
def transformC (prev : Bool) (c : Char) : Char :=
  if isAlphaC c then (if prev then lowerC c else upperC c) else c

/-- Python `str.title()` on a character list, threading the
"previous character was cased" state. -/
def titleChars : Bool → List Char → List Char
  | _, [] => []
  | prev, c :: cs => transformC prev c :: titleChars (isAlphaC c) cs

theorem isAlphaC_transformC (b : Bool) (c : Char) :
    isAlphaC (transformC b c) = isAlphaC c := by
  unfold transformC
  cases h : isAlphaC c <;> simp [h]
  cases b <;> simp [isAlphaC_upperC, isAlphaC_lowerC, h]

theorem isWsC_transformC (b : Bool) (c : Char) :
    isWsC (transformC b c) = isWsC c := by
  unfold transformC
  cases h : isAlphaC c <;> simp [h]
  cases b <;> simp [isWsC_upperC, isWsC_lowerC]

theorem transformC_transformC (b : Bool) (c : Char) :
    transformC b (transformC b c) = transformC b c := by
  unfold transformC
  cases h : isAlphaC c
  · simp [h]
  · cases b <;> simp [h, isAlphaC_upperC, isAlphaC_lowerC,
      upperC_upperC, lowerC_lowerC]

theorem lowerC_transformC (b : Bool) (c : Char) :
    lowerC (transformC b c) = lowerC c := by
  unfold transformC
  cases h : isAlphaC c
  · simp [h]
  · cases b <;> simp [h, lowerC_upperC, lowerC_lowerC]

theorem titleChars_titleChars (b : Bool) (l : List Char) :
    titleChars b (titleChars b l) = titleChars b l := by
  induction l generalizing b with
  | nil => rfl
  | cons c cs ih =>
    simp only [titleChars, transformC_transformC, isAlphaC_transformC]
    rw [ih]

theorem map_lowerC_titleChars (b : Bool) (l : List Char) :
    (titleChars b l).map lowerC = l.map lowerC := by
  induction l generalizing b with
  | nil => rfl
  | cons c cs ih =>
    simp only [titleChars, List.map_cons, lowerC_transformC]
    rw [ih]

theorem titleChars_head? (b : Bool) (l : List Char) :
    (titleChars b l).head? = l.head?.map (transformC b) := by
  cases l <;> rfl

theorem titleChars_getLast? (b : Bool) (l : List Char) (h : l ≠ []) :
    ∃ b', (titleChars b l).getLast? = l.getLast?.map (transformC b') := by
  induction l generalizing b with
  | nil => exact absurd rfl h
  | cons c cs ih =>
    cases cs with
    | nil => exact ⟨b, rfl⟩
    | cons c' cs' =>
      obtain ⟨b', hb'⟩ := ih (b := isAlphaC c) (by simp)
      refine ⟨b', ?_⟩
      simpa [titleChars, List.getLast?_cons_cons] using hb'

/-- Python `str.strip()` on a character list. -/
def stripChars (l : List Char) : List Char :=
  ((l.dropWhile isWsC).reverse.dropWhile isWsC).reverse

theorem dropWhile_head?_false (p : Char → Bool) (l : List Char) :
    ∀ c ∈ (l.dropWhile p).head?, p c = false := by
  induction l with
  | nil => simp
  | cons a l ih =>
    intro c hc
    rw [List.dropWhile_cons] at hc
    cases hpa : p a with
    | false =>
      rw [hpa] at hc
      simp at hc
      subst hc
      exact hpa
    | true =>
      rw [hpa] at hc
      simp only [if_true, reduceIte] at hc
      exact ih c hc

theorem dropWhile_eq_self_of_head? (p : Char → Bool) (l : List Char)
    (h : ∀ c ∈ l.head?, p c = false) : l.dropWhile p = l := by
  cases l with
  | nil => rfl
  | cons a l =>
    have ha : p a = false := h a (by simp)
    simp [List.dropWhile_cons, ha]

theorem stripChars_head? (l : List Char) :
    ∀ c ∈ (stripChars l).head?, isWsC c = false := by
  intro c hc
  unfold stripChars at hc
  set d := l.dropWhile isWsC with hd
  set e := d.reverse.dropWhile isWsC with he
  rw [List.head?_reverse] at hc
  cases hee : e with
  | nil => rw [hee] at hc; simp at hc
  | cons x xs =>
    have hsuf : e <:+ d.reverse := by rw [he]; exact List.dropWhile_suffix _
    obtain ⟨t, ht⟩ := hsuf
    have : e.getLast? = d.reverse.getLast? := by
      rw [← ht]
      exact (List.getLast?_append_of_ne_nil t (by rw [hee]; simp)).symm
    rw [this, List.getLast?_reverse] at hc
    exact dropWhile_head?_false isWsC l c hc

theorem stripChars_getLast? (l : List Char) :
    ∀ c ∈ (stripChars l).getLast?, isWsC c = false := by
  intro c hc
  unfold stripChars at hc
  rw [List.getLast?_reverse] at hc
  exact dropWhile_head?_false isWsC _ c hc

theorem stripChars_eq_self (l : List Char)
    (h1 : ∀ c ∈ l.head?, isWsC c = false)
    (h2 : ∀ c ∈ l.getLast?, isWsC c = false) : stripChars l = l := by
  unfold stripChars
  rw [dropWhile_eq_self_of_head? isWsC l h1]
  rw [dropWhile_eq_self_of_head? isWsC l.reverse (by
    intro c hc
    rw [List.head?_reverse] at hc
    exact h2 c hc)]
  exact List.reverse_reverse l

theorem stripChars_idem (l : List Char) :
    stripChars (stripChars l) = stripChars l :=
  stripChars_eq_self _ (stripChars_head? l) (stripChars_getLast? l)

theorem eq_self_head?_of_stripChars (l : List Char) (h : stripChars l = l) :
    (∀ c ∈ l.head?, isWsC c = false) ∧ (∀ c ∈ l.getLast?, isWsC c = false) := by
  constructor
  · intro c hc; exact stripChars_head? l c (by rw [h]; exact hc)
  · intro c hc; exact stripChars_getLast? l c (by rw [h]; exact hc)

theorem stripChars_titleChars (b : Bool) (l : List Char)
    (h : stripChars l = l) :
    stripChars (titleChars b l) = titleChars b l := by
  obtain ⟨h1, h2⟩ := eq_self_head?_of_stripChars l h
  apply stripChars_eq_self
  · intro c hc
    rw [titleChars_head?] at hc
    cases hl : l.head? with
    | none => rw [hl] at hc; simp at hc
    | some a =>
      rw [hl] at hc
      have hca : transformC b a = c := by simpa using hc
      rw [← hca, isWsC_transformC]
      exact h1 a (by rw [hl]; rfl)
  · intro c hc
    cases l with
    | nil => simp [titleChars] at hc
    | cons a as =>
      obtain ⟨b', hb'⟩ := titleChars_getLast? b (a :: as) (by simp)
      rw [hb'] at hc
      cases hg : (a :: as).getLast? with
      | none => rw [hg] at hc; simp at hc
      | some a' =>
        rw [hg] at hc
        have hca : transformC b' a' = c := by simpa using hc
        rw [← hca, isWsC_transformC]
        exact h2 a' (by rw [hg]; rfl)

/-- SQLite `LOWER` at `String` level — exact on every string, since the
built-in `LOWER` folds ASCII letters only. The source also uses Python
`str.lower()` (for the correction key `old_name.strip().lower()` and the
type/ability lookup keys); there this map is exact only on ASCII strings,
because Python additionally lowers non-ASCII letters (`'Ä'` becomes `'ä'`)
where this map is the identity. Theorems that need the Python reading on
arbitrary data therefore carry an explicit ASCII hypothesis. -/
def pyLower (s : String) : String := ⟨s.data.map lowerC⟩

/-- Python `str.strip()` at `String` level, exact on ASCII strings: it
removes the six ASCII whitespace characters, while Python also strips
Unicode whitespace such as U+00A0 and U+0085. Theorems that rely on it as
Python `strip` on arbitrary data carry an explicit ASCII hypothesis. -/
def pyStrip (s : String) : String := ⟨stripChars s.data⟩

/-- Python `str.title()` at `String` level, exact on ASCII strings: it
case-maps ASCII letters only, while Python title-cases the full Unicode
repertoire (`'ä'.title()` is `'Ä'`, and `'ß'.title()` is the two-letter
`'Ss'`, which no per-character map can produce). Theorems that rely on it
as Python `title` on arbitrary data carry an explicit ASCII hypothesis. -/
def pyTitle (s : String) : String := ⟨titleChars false s.data⟩

/-- Every character of `s` is ASCII (code point below 128). On such strings
`pyLower`, `pyStrip` and `pyTitle` agree exactly with Python `str.lower()`,
`str.strip()` and `str.title()`. Outside ASCII the program itself mixes two
case conventions — SQLite `LOWER` folds ASCII only while the Python
transformations fold full Unicode — so e.g. rows named `'ä'` and `'Ä'`
survive dedup as separate `LOWER` groups and `title()` then renames both to
`'Ä'`, a divergence the ASCII-only model cannot express. -/
def asciiStr (s : String) : Bool := s.data.all fun c => c.toNat < 128

theorem string_ext {s t : String} (h : s.data = t.data) : s = t := by
  cases s; cases t; exact congrArg String.mk h

theorem pyTitle_pyTitle (s : String) : pyTitle (pyTitle s) = pyTitle s :=
  string_ext (titleChars_titleChars false s.data)

theorem pyLower_pyTitle (s : String) : pyLower (pyTitle s) = pyLower s :=
  string_ext (map_lowerC_titleChars false s.data)

theorem pyStrip_pyStrip (s : String) : pyStrip (pyStrip s) = pyStrip s :=
  string_ext (stripChars_idem s.data)

theorem pyStrip_pyTitle (s : String) (h : pyStrip s = s) :
    pyStrip (pyTitle s) = pyTitle s := by
  have hd : stripChars s.data = s.data := congrArg String.data h
  exact string_ext (stripChars_titleChars false s.data hd)

/-- The normalized form of a name, as written back by the cleaning pass:
`name.strip().title()`. -/
def normName (s : String) : String := pyTitle (pyStrip s)

theorem normName_idem (s : String) : normName (normName s) = normName s := by
  unfold normName
  rw [pyStrip_pyTitle (pyStrip s) (pyStrip_pyStrip s), pyTitle_pyTitle]

theorem pyStrip_normName (s : String) : pyStrip (normName s) = normName s :=
  pyStrip_pyTitle (pyStrip s) (pyStrip_pyStrip s)

theorem pyLower_normName (s : String) : pyLower (normName s) = pyLower (pyStrip s) :=
  pyLower_pyTitle (pyStrip s)

/-!
## Data model

The SQLite schema behind `candidate_solution.py`: four entity tables
(`pokemon`, `types`, `abilities`, `trainers`) and the association table
`trainer_pokemon_abilities`.  Rows are listed in rowid order, ids are the
store-assigned integer primary keys.
-/

/-- Row of the `types`, `abilities` and `trainers` tables. -/
structure Row where
  id : Nat
  name : String
deriving DecidableEq

/-- Row of the `pokemon` table. -/
structure PokemonRow where
  id : Nat
  name : String
  type1_id : Option Nat
  type2_id : Option Nat
deriving DecidableEq

/-- Row of the `trainer_pokemon_abilities` association table. -/
structure TpaRow where
  id : Nat
  trainer_id : Nat
  pokemon_id : Nat
  ability_id : Nat
deriving DecidableEq

/-- The persisted store: four entity tables plus the association table. -/
structure Store where
  pokemon : List PokemonRow
  types : List Row
  abilities : List Row
  trainers : List Row
  tpa : List TpaRow
deriving DecidableEq

/-- Interface shared by the entity tables: every row has an integer `id`
column and a `name` column that the cleaning pass rewrites. -/
class EntityRow (α : Type) where
  rid : α → Nat
  rname : α → String
  setName : α → String → α
  rid_setName : ∀ r n, rid (setName r n) = rid r
  rname_setName : ∀ r n, rname (setName r n) = n
  setName_rname : ∀ r, setName r (rname r) = r

instance : EntityRow Row where
  rid := Row.id
  rname := Row.name
  setName := fun r n => { r with name := n }
  rid_setName := fun _ _ => rfl
  rname_setName := fun _ _ => rfl
  setName_rname := fun _ => rfl

instance : EntityRow PokemonRow where
  rid := PokemonRow.id
  rname := PokemonRow.name
  setName := fun r n => { r with name := n }
  rid_setName := fun _ _ => rfl
  rname_setName := fun _ _ => rfl
  setName_rname := fun _ => rfl

open EntityRow

/-!
## difflib

`clean_database` corrects misspelled pokemon names with
`difflib.get_close_matches(word, official_list, n=1, cutoff=0.8)`.  We embed
`SequenceMatcher`'s matching-block computation (no junk heuristic applies:
`isjunk` is `None` and the autojunk rule only fires on sequences of 200+
elements, far beyond these names).
-/

/-- One row (fixed `i`) of `find_longest_match`'s dynamic programme:
scan `j` over `[blo, bhi)`, extend runs recorded in `j2len` (an association
list `j ↦ length of the match ending at (i-1, j)`), track the best block. -/
def flmRow (a b : Array Char) (blo bhi i : Nat) (j2len : List (Nat × Nat))
    (best : Nat × Nat × Nat) : List (Nat × Nat) × (Nat × Nat × Nat) :=
  (List.range' blo (bhi - blo)).foldl
    (fun acc j =>
      if a.getD i ' ' = b.getD j ' ' then
        let k := (if j = 0 then 0 else (j2len.lookup (j - 1)).getD 0) + 1
        let best' := if k > acc.2.2.2 then (i + 1 - k, j + 1 - k, k) else acc.2
        ((j, k) :: acc.1, best')
      else acc)
    ([], best)

/-- `SequenceMatcher.find_longest_match(alo, ahi, blo, bhi)` without junk:
returns `(besti, bestj, bestsize)`. -/
def findLongestMatch (a b : Array Char) (alo ahi blo bhi : Nat) : Nat × Nat × Nat :=
  ((List.range' alo (ahi - alo)).foldl
    (fun acc i => flmRow a b blo bhi i acc.1 acc.2)
    ([], (alo, blo, 0))).2

/-- Recursive expansion of `get_matching_blocks`, summing the block sizes.
The fuel strictly exceeds the recursion depth (each split strictly shrinks
the combined region size), so `matchTotal` always runs to completion. -/
def matchingTotalAux (a b : Array Char) : Nat → Nat → Nat → Nat → Nat → Nat
  | 0, _, _, _, _ => 0
  | fuel + 1, alo, ahi, blo, bhi =>
    let m := findLongestMatch a b alo ahi blo bhi
    if m.2.2 = 0 then 0
    else
      m.2.2 + matchingTotalAux a b fuel alo m.1 blo m.2.1 +
        matchingTotalAux a b fuel (m.1 + m.2.2) ahi (m.2.1 + m.2.2) bhi

/-- Total number of matched elements between `a` and `b`
(the `M` of `SequenceMatcher.ratio() = 2*M/T`). -/
def matchTotal (a b : Array Char) : Nat :=
  matchingTotalAux a b (a.size + b.size + 1) 0 a.size 0 b.size

/-- `SequenceMatcher.ratio()` as an exact fraction `(num, den)`:
`2*M / (len(a)+len(b))`, and `1/1` for two empty sequences (difflib returns
`1.0` there).  difflib compares IEEE doubles; we compare the exact
rationals. -/
def ratioFrac (a b : Array Char) : Nat × Nat :=
  let t := a.size + b.size
  if t = 0 then (1, 1) else (2 * matchTotal a b, t)

/-- View a string as the array of its characters. -/
def strArr (s : String) : Array Char := s.data.toArray

/-- One candidate step of `get_close_matches`: keep `x` when its ratio
passes the 4/5 cutoff and `(ratio, x)` beats the best pair so far
(ratio fractions are compared by cross-multiplication). -/
def gcmStep (w : Array Char) (best : Option (Nat × Nat × String)) (x : String) :
    Option (Nat × Nat × String) :=
  if 5 * (ratioFrac (strArr x) w).1 ≥ 4 * (ratioFrac (strArr x) w).2 then
    match best with
    | none => some ((ratioFrac (strArr x) w).1, (ratioFrac (strArr x) w).2, x)
    | some (bn, bd, bx) =>
      if (ratioFrac (strArr x) w).1 * bd > bn * (ratioFrac (strArr x) w).2 ∨
          ((ratioFrac (strArr x) w).1 * bd = bn * (ratioFrac (strArr x) w).2 ∧ bx < x) then
        some ((ratioFrac (strArr x) w).1, (ratioFrac (strArr x) w).2, x)
      else some (bn, bd, bx)
  else best

/-- `difflib.get_close_matches(word, possibilities, n=1, cutoff=0.8)`:
keep candidates whose ratio is ≥ 4/5 and return the greatest
`(ratio, candidate)` pair (difflib sorts score/candidate pairs, so ties on
the score go to the lexicographically larger string).  difflib's
`real_quick_ratio`/`quick_ratio` pre-filters are upper bounds of `ratio`
and cannot change the outcome. -/
def getCloseMatches1 (word : String) (possibilities : List String) : Option String :=
  (possibilities.foldl (gcmStep (strArr word)) none).map fun t => t.2.2

/-!
## The cleaning pass (`clean_database`)
-/

/-- Decision taken by the correction loop of `clean_database` for one stored
pokemon name: `none` when the loop leaves the row alone (name already in the
official list, no close match, or the match equals the lowered name),
`some m` when it runs `UPDATE pokemon SET name = m WHERE id = ...`
with `m = corrected.title()`. -/
def correctedName (official : List String) (oldName : String) : Option String :=
  if pyLower (pyStrip oldName) ∈ official then none
  else
    match getCloseMatches1 (pyLower (pyStrip oldName)) official with
    | none => none
    | some c => if c ≠ pyLower (pyStrip oldName) then some (pyTitle c) else none

/-- A fetch-all snapshot followed by a loop of conditional per-id `UPDATE`
statements — the shape shared by the correction loop and the normalization
loops of `clean_database`: decisions are computed from the snapshot taken
before the first update. -/
def updatePass {α : Type} [EntityRow α] (f : String → Option String)
    (rows : List α) : List α :=
  (rows.map fun r => (rid r, rname r)).foldl
    (fun acc e =>
      match f e.2 with
      | none => acc
      | some m => acc.map fun r => if rid r = e.1 then setName r m else r)
    rows

/-- The correction loop of `clean_database` (it only runs on `pokemon`). -/
def correctPokemon (official : List String) (rows : List PokemonRow) : List PokemonRow :=
  updatePass (correctedName official) rows

/-- `SELECT MIN(id) FROM t WHERE LOWER(name) = key`: minimum id of the rows
whose lower-cased name equals `key`. -/
def minIdOf {α : Type} [EntityRow α] (rows : List α) (key : String) : Option Nat :=
  ((rows.filter fun r => pyLower (rname r) = key).map fun r => rid r).min?

/-- One `DELETE FROM t WHERE id NOT IN (SELECT MIN(id) FROM t GROUP BY
LOWER(name))` statement: a row survives iff its id is the minimum id of some
case-insensitive name group. -/
def dedupTable {α : Type} [EntityRow α] (rows : List α) : List α :=
  rows.filter fun r =>
    rows.any fun r' => minIdOf rows (pyLower (rname r')) = some (rid r)

/-- One normalization loop: `UPDATE t SET name = ? WHERE id = ?` with
`name.strip().title()` for every snapshot row. -/
def normalizePass {α : Type} [EntityRow α] (rows : List α) : List α :=
  updatePass (fun n => some (normName n)) rows

/-- One `DELETE FROM t WHERE name IN ('---', '???', '')` statement. -/
def purgeTable {α : Type} [EntityRow α] (rows : List α) : List α :=
  rows.filter fun r => ¬(rname r = "---" ∨ rname r = "???" ∨ rname r = "")

/-- The dedup → normalize → purge sub-pipeline that `clean_database` applies
to each entity table (each stage runs over all four tables before the next
stage starts, but the stages are independent across tables, so the per-table
composition is the table's whole pipeline). -/
def cleanTable {α : Type} [EntityRow α] (rows : List α) : List α :=
  purgeTable (normalizePass (dedupTable rows))

/-- `clean_database`: correction (pokemon only), duplicate removal,
normalization, then sentinel purge, in source order.  `official` is the
canonical name list fetched from the PokeAPI (empty when the fetch fails).
The association table `trainer_pokemon_abilities` is never touched. -/
def cleanDatabase (official : List String) (s : Store) : Store :=
  { pokemon := cleanTable (correctPokemon official s.pokemon)
    types := cleanTable s.types
    abilities := cleanTable s.abilities
    trainers := cleanTable s.trainers
    tpa := s.tpa }

/-!
## Query layer (`get_pokemon_by_type`)
-/

/-- Does the type slot `oid` join to a `types` row whose lowered name equals
`ql` (`LEFT JOIN types ON p.typeN_id = t.id ... LOWER(t.name) = LOWER(?)`)?
A `NULL` slot joins to no row and the `NULL` comparison is false. -/
def typeSlotMatch (s : Store) (ql : String) (oid : Option Nat) : Bool :=
  match oid with
  | none => false
  | some i => s.types.any fun t => t.id = i ∧ pyLower t.name = ql

/-- `SELECT DISTINCT` projection: first occurrence of each value, in order. -/
def distinctNames (l : List String) : List String :=
  l.foldl (fun acc x => if x ∈ acc then acc else acc ++ [x]) []

/-- `GET /pokemon/type/{type_name}` (`get_pokemon_by_type`): distinct names
of the pokemon one of whose type slots matches the parameter
case-insensitively. -/
def getPokemonByType (s : Store) (typeName : String) : List String :=
  let ql := pyLower typeName
  distinctNames ((s.pokemon.filter fun p =>
    typeSlotMatch s ql p.type1_id || typeSlotMatch s ql p.type2_id).map
    fun p => p.name)

/-!
## Ingestion (`create_pokemon`)
-/

/-- The part of one PokeAPI `/pokemon/{name}` response `create_pokemon`
reads: declared type names and ability names, in order. -/
structure PokeDetail where
  types : List String
  abilities : List String
deriving DecidableEq

/-- The failure results of `create_pokemon`: HTTP 404 ("Pokemon not found.")
and HTTP 500 ("No trainers in the table"). -/
inductive CreateError
  | notFound
  | noTrainers
deriving DecidableEq

/-- SQLite assigns `max(rowid) + 1` to a fresh row (`cursor.lastrowid`). -/
def nextRowId (ids : List Nat) : Nat := ids.foldl max 0 + 1

/-- `SELECT id FROM types WHERE LOWER(name) = LOWER(?)`, inserting
`tname.title()` when absent. -/
def lookupOrInsertType (tname : String) (s : Store) : Nat × Store :=
  match s.types.find? fun t => pyLower t.name = pyLower tname with
  | some t => (t.id, s)
  | none =>
    let nid := nextRowId (s.types.map fun t => t.id)
    (nid, { s with types := s.types ++ [⟨nid, pyTitle tname⟩] })

/-- Same pattern on the `abilities` table. -/
def lookupOrInsertAbility (aname : String) (s : Store) : Nat × Store :=
  match s.abilities.find? fun t => pyLower t.name = pyLower aname with
  | some t => (t.id, s)
  | none =>
    let nid := nextRowId (s.abilities.map fun t => t.id)
    (nid, { s with abilities := s.abilities ++ [⟨nid, pyTitle aname⟩] })

/-- The type loop of `create_pokemon`: each declared type name is
stripped/lowered, looked up or inserted, and its id collected in order. -/
def resolveTypes : List String → Store → List Nat × Store
  | [], s => ([], s)
  | n :: rest, s =>
    let p := lookupOrInsertType (pyLower (pyStrip n)) s
    let q := resolveTypes rest p.2
    (p.1 :: q.1, q.2)

/-- The creature upsert of `create_pokemon`: update the type slots of the
first case-insensitive name match, otherwise insert a fresh row named
`pokemon_name.title()`. -/
def upsertPokemon (pname : String) (t1 t2 : Option Nat) (s : Store) : Nat × Store :=
  match s.pokemon.find? fun p => pyLower p.name = pyLower pname with
  | some p =>
    (p.id, { s with pokemon := s.pokemon.map fun q =>
      if q.id = p.id then { q with type1_id := t1, type2_id := t2 } else q })
  | none =>
    let nid := nextRowId (s.pokemon.map fun p => p.id)
    (nid, { s with pokemon := s.pokemon ++ [⟨nid, pyTitle pname, t1, t2⟩] })

/-- One iteration of the ability loop of `create_pokemon`: look up/insert
the ability, draw a trainer (`SELECT id FROM trainers ORDER BY RANDOM()
LIMIT 1`, abstracted by `pick`; the query returns no row exactly when the
table is empty) and insert one `trainer_pokemon_abilities` row.  `none` is
the no-trainer branch. -/
def linkOne (pick : List Row → Option Nat) (pid : Nat) (a : String) (s : Store) :
    Option (Nat × Store) :=
  match pick (lookupOrInsertAbility (pyLower (pyStrip a)) s).2.trainers with
  | none => none
  | some tid =>
    some (nextRowId ((lookupOrInsertAbility (pyLower (pyStrip a)) s).2.tpa.map
        fun t => t.id),
      { (lookupOrInsertAbility (pyLower (pyStrip a)) s).2 with
        tpa := (lookupOrInsertAbility (pyLower (pyStrip a)) s).2.tpa ++
          [⟨nextRowId ((lookupOrInsertAbility (pyLower (pyStrip a)) s).2.tpa.map
              fun t => t.id),
            tid, pid, (lookupOrInsertAbility (pyLower (pyStrip a)) s).1⟩] })

/-- The ability loop of `create_pokemon`, iterating `linkOne` and collecting
the new link ids; a `none` from any iteration aborts the loop
(`conn.rollback()` + HTTP 500 in the source). -/
def linkAbilities (pick : List Row → Option Nat) (pid : Nat) :
    List String → Store → Option (List Nat × Store)
  | [], s => some ([], s)
  | a :: rest, s =>
    match linkOne pick pid a s with
    | none => none
    | some ls =>
      match linkAbilities pick pid rest ls.2 with
      | none => none
      | some q => some (ls.1 :: q.1, q.2)

/-- `POST /pokemon/create/{pokemon_name}` (`create_pokemon`).  `detail?` is
the PokeAPI lookup result (`none` models a non-200 response, answered with
HTTP 404 before any write).  On the no-trainer branch the code calls
`conn.rollback()`, discarding every uncommitted insert, so the original
store is returned; on success `conn.commit()` persists the accumulated
writes and the new link ids are returned. -/
def createPokemon (pick : List Row → Option Nat) (detail? : Option PokeDetail)
    (pname : String) (s : Store) : Except CreateError (List Nat) × Store :=
  match detail? with
  | none => (.error .notFound, s)
  | some d =>
    let r := resolveTypes d.types s
    let u := upsertPokemon pname r.1[0]? r.1[1]? r.2
    match linkAbilities pick u.1 d.abilities u.2 with
    | none => (.error .noTrainers, s)
    | some q => (.ok q.1, q.2)

/-!
## Lemmas: the snapshot/update loops

`updatePass` folds per-id `UPDATE`s over a snapshot taken up front.  Under
the primary-key guarantee (no two rows share an id) it acts as a map that
applies each row's own decision.
-/

/-- Effect of one snapshot entry's conditional `UPDATE` on one row. -/
def applyEntry {α : Type} [EntityRow α] (f : String → Option String)
    (e : Nat × String) (r : α) : α :=
  match f e.2 with
  | none => r
  | some m => if EntityRow.rid r = e.1 then EntityRow.setName r m else r

/-- Effect of the pass on a row whose own snapshot entry is the only one
with its id. -/
def applyDecision {α : Type} [EntityRow α] (f : String → Option String) (r : α) : α :=
  match f (EntityRow.rname r) with
  | none => r
  | some m => EntityRow.setName r m

theorem rid_applyEntry {α : Type} [EntityRow α] (f : String → Option String)
    (e : Nat × String) (r : α) : rid (applyEntry f e r) = rid r := by
  unfold applyEntry
  cases f e.2 with
  | none => rfl
  | some m => by_cases h : rid r = e.1 <;> simp [h, rid_setName]

theorem rid_applyDecision {α : Type} [EntityRow α] (f : String → Option String)
    (r : α) : rid (applyDecision f r) = rid r := by
  unfold applyDecision
  cases f (rname r) with
  | none => rfl
  | some m => exact rid_setName r m

theorem applyEntry_none {α : Type} [EntityRow α] (f : String → Option String)
    (e : Nat × String) (r : α) (h : f e.2 = none) : applyEntry f e r = r := by
  unfold applyEntry
  rw [h]

theorem applyEntry_of_ne {α : Type} [EntityRow α] (f : String → Option String)
    (e : Nat × String) (r : α) (h : e.1 ≠ rid r) : applyEntry f e r = r := by
  unfold applyEntry
  cases f e.2 with
  | none => rfl
  | some m =>
    show (if rid r = e.1 then setName r m else r) = r
    exact if_neg fun hh => h hh.symm

theorem applyEntry_own {α : Type} [EntityRow α] (f : String → Option String) (r : α) :
    applyEntry f (rid r, rname r) r = applyDecision f r := by
  unfold applyEntry applyDecision
  cases f (rname r) with
  | none => rfl
  | some m =>
    show (if rid r = (rid r, rname r).1 then setName r m else r) = setName r m
    exact if_pos rfl

theorem foldl_applyEntry_of_ne {α : Type} [EntityRow α] (f : String → Option String)
    (es : List (Nat × String)) (r : α) (h : ∀ e ∈ es, e.1 ≠ rid r) :
    es.foldl (fun r e => applyEntry f e r) r = r := by
  induction es with
  | nil => rfl
  | cons e es ih =>
    rw [List.foldl_cons, applyEntry_of_ne f e r (h e (by simp))]
    exact ih fun e' he' => h e' (by simp [he'])

theorem foldl_updateStep_eq_map {α : Type} [EntityRow α] (f : String → Option String)
    (es : List (Nat × String)) (rows : List α) :
    es.foldl (fun acc e =>
      match f e.2 with
      | none => acc
      | some m => acc.map fun r => if rid r = e.1 then setName r m else r) rows
    = rows.map fun r => es.foldl (fun r e => applyEntry f e r) r := by
  induction es generalizing rows with
  | nil => simp
  | cons e es ih =>
    simp only [List.foldl_cons]
    have hstep :
        (match f e.2 with
          | none => rows
          | some m => rows.map fun r => if rid r = e.1 then setName r m else r)
        = rows.map (applyEntry f e) := by
      cases hf : f e.2 with
      | none =>
        have : rows.map (applyEntry f e) = rows.map fun r => r :=
          List.map_congr_left fun r _ => applyEntry_none f e r hf
        rw [this]
        simp
      | some m =>
        refine (List.map_congr_left fun r _ => ?_).symm
        unfold applyEntry
        rw [hf]
    rw [hstep, ih, List.map_map]
    rfl

theorem foldl_applyEntry_map {α : Type} [EntityRow α] (f : String → Option String)
    (rows : List α) (h : (rows.map rid).Nodup) :
    (rows.map fun r =>
      (rows.map fun r' => (rid r', rname r')).foldl (fun r e => applyEntry f e r) r)
    = rows.map (applyDecision f) := by
  induction rows with
  | nil => rfl
  | cons r0 rest ih =>
    simp only [List.map_cons, List.nodup_cons] at h
    obtain ⟨h0, hrest⟩ := h
    have hne : ∀ r ∈ rest, rid r ≠ rid r0 := by
      intro r hr heq
      exact h0 (by rw [← heq]; exact List.mem_map_of_mem rid hr)
    simp only [List.map_cons, List.foldl_cons]
    have hhead :
        ((rest.map fun r' => (rid r', rname r')).foldl
          (fun r e => applyEntry f e r) (applyEntry f (rid r0, rname r0) r0))
        = applyDecision f r0 := by
      rw [applyEntry_own]
      apply foldl_applyEntry_of_ne
      intro e he
      simp only [List.mem_map] at he
      obtain ⟨r', hr', rfl⟩ := he
      rw [rid_applyDecision]
      exact hne r' hr'
    have htail : rest.map (fun r =>
        (rest.map fun r' => (rid r', rname r')).foldl
          (fun r e => applyEntry f e r) (applyEntry f (rid r0, rname r0) r))
        = rest.map (applyDecision f) := by
      rw [List.map_congr_left (g := fun r =>
        (rest.map fun r' => (rid r', rname r')).foldl (fun r e => applyEntry f e r) r)
        (fun r hr => by rw [applyEntry_of_ne f _ r (Ne.symm (hne r hr))])]
      exact ih hrest
    rw [hhead, htail]

/-- Under the primary-key guarantee, a snapshot/update loop maps each row's
own decision over the table. -/
theorem updatePass_eq_map {α : Type} [EntityRow α] (f : String → Option String)
    (rows : List α) (h : (rows.map rid).Nodup) :
    updatePass f rows = rows.map (applyDecision f) := by
  unfold updatePass
  rw [foldl_updateStep_eq_map]
  exact foldl_applyEntry_map f rows h

theorem foldl_updateStep_eq_self {α : Type} [EntityRow α] (f : String → Option String)
    (es : List (Nat × String)) (rows : List α) (h : ∀ e ∈ es, f e.2 = none) :
    es.foldl (fun acc e =>
      match f e.2 with
      | none => acc
      | some m => acc.map fun r => if rid r = e.1 then setName r m else r) rows
    = rows := by
  induction es generalizing rows with
  | nil => rfl
  | cons e es ih =>
    rw [List.foldl_cons]
    have he : f e.2 = none := h e (by simp)
    rw [show (match f e.2 with
        | none => rows
        | some m => rows.map fun r => if rid r = e.1 then setName r m else r) = rows
      from by rw [he]]
    exact ih rows fun e' he' => h e' (by simp [he'])

/-- A snapshot/update loop whose decision declines every row is a no-op
(no primary-key assumption needed). -/
theorem updatePass_eq_self {α : Type} [EntityRow α] (f : String → Option String)
    (rows : List α) (h : ∀ r ∈ rows, f (rname r) = none) :
    updatePass f rows = rows := by
  unfold updatePass
  apply foldl_updateStep_eq_self
  intro e he
  simp only [List.mem_map] at he
  obtain ⟨r, hr, rfl⟩ := he
  exact h r hr

/-!
## Lemmas: deduplication
-/

theorem min?_spec (l : List Nat) (a : Nat) (h : l.min? = some a) :
    a ∈ l ∧ ∀ b ∈ l, a ≤ b := by
  rw [List.min?_eq_some_iff] at h
  · exact h
  · exact fun a => Nat.le_refl a
  · intro a b; omega
  · intro a b c; omega

theorem mem_eq_of_rid_eq {α : Type} [EntityRow α] (rows : List α)
    (h : (rows.map rid).Nodup) {a b : α} (ha : a ∈ rows) (hb : b ∈ rows)
    (hab : rid a = rid b) : a = b :=
  List.inj_on_of_nodup_map h ha hb hab

theorem minIdOf_attained {α : Type} [EntityRow α] (rows : List α) (key : String)
    (m : Nat) (h : minIdOf rows key = some m) :
    (∃ r ∈ rows, pyLower (rname r) = key ∧ rid r = m) ∧
      ∀ r ∈ rows, pyLower (rname r) = key → m ≤ rid r := by
  unfold minIdOf at h
  obtain ⟨hmem, hle⟩ := min?_spec _ m h
  constructor
  · simp only [List.mem_map, List.mem_filter, decide_eq_true_eq] at hmem
    obtain ⟨r, ⟨hr, hkey⟩, hrid⟩ := hmem
    exact ⟨r, hr, hkey, hrid⟩
  · intro r hr hkey
    exact hle (rid r)
      (List.mem_map_of_mem _ (List.mem_filter.mpr ⟨hr, decide_eq_true hkey⟩))

theorem mem_dedupTable {α : Type} [EntityRow α] (rows : List α) (r : α) :
    r ∈ dedupTable rows ↔ r ∈ rows ∧ ∃ r' ∈ rows,
      minIdOf rows (pyLower (rname r')) = some (rid r) := by
  unfold dedupTable
  rw [List.mem_filter]
  simp only [List.any_eq_true, decide_eq_true_eq]

/-- Under the primary-key guarantee, a surviving row is the minimum of its
own case-insensitive name group. -/
theorem dedupTable_kept_own {α : Type} [EntityRow α] (rows : List α)
    (h : (rows.map rid).Nodup) (r : α) (hr : r ∈ dedupTable rows) :
    minIdOf rows (pyLower (rname r)) = some (rid r) := by
  rw [mem_dedupTable] at hr
  obtain ⟨hmem, r', hr', hmin⟩ := hr
  obtain ⟨⟨r'', hr'', hkey, hridr⟩, hle⟩ := minIdOf_attained rows _ _ hmin
  have heq : r'' = r := mem_eq_of_rid_eq rows h hr'' hmem hridr
  subst heq
  rw [hkey]
  exact hmin

/-- After deduplication no two surviving rows share a lower-cased name
(needs the primary-key guarantee). -/
theorem dedupTable_pairwise {α : Type} [EntityRow α] (rows : List α)
    (h : (rows.map rid).Nodup) :
    (dedupTable rows).Pairwise fun a b => pyLower (rname a) ≠ pyLower (rname b) := by
  have hne : rows.Pairwise fun a b => rid a ≠ rid b := List.pairwise_map.mp h
  have hded : (dedupTable rows).Pairwise fun a b => rid a ≠ rid b := by
    unfold dedupTable
    exact hne.filter _
  refine hded.imp_of_mem ?_
  intro a b ha hb hab heq
  have hka := dedupTable_kept_own rows h a ha
  have hkb := dedupTable_kept_own rows h b hb
  rw [heq] at hka
  exact hab (Option.some.inj (hka.symm.trans hkb))

theorem filter_key_singleton {α β : Type} [DecidableEq β] (f : α → β) (l : List α)
    (hp : l.Pairwise fun a b => f a ≠ f b) (r : α) (hr : r ∈ l) :
    l.filter (fun x => f x = f r) = [r] := by
  induction l with
  | nil => cases hr
  | cons a t ih =>
    rw [List.pairwise_cons] at hp
    obtain ⟨ha, hpt⟩ := hp
    rcases List.mem_cons.mp hr with heq | hrt
    · have h1 : t.filter (fun x => f x = f r) = [] := by
        rw [List.filter_eq_nil_iff]
        intro x hx
        simp only [decide_eq_true_eq]
        intro hfx
        apply ha x hx
        rw [heq] at hfx
        exact hfx.symm
      rw [List.filter_cons_of_pos (by simp [heq]), h1, heq]
    · have h0 : ¬(f a = f r) := fun hfa => ha r hrt hfa
      rw [List.filter_cons_of_neg (by simpa using h0)]
      exact ih hpt hrt

/-- Deduplication is the identity on a table whose lower-cased names are
already pairwise distinct. -/
theorem dedupTable_eq_self {α : Type} [EntityRow α] (l : List α)
    (hp : l.Pairwise fun a b => pyLower (rname a) ≠ pyLower (rname b)) :
    dedupTable l = l := by
  unfold dedupTable
  apply List.filter_eq_self.mpr
  intro r hr
  have hfil : l.filter (fun x => pyLower (rname x) = pyLower (rname r)) = [r] :=
    filter_key_singleton (fun x => pyLower (rname x)) l hp r hr
  have hmin : minIdOf l (pyLower (rname r)) = some (rid r) := by
    unfold minIdOf
    rw [hfil]
    rfl
  simp only [List.any_eq_true, decide_eq_true_eq]
  exact ⟨r, hr, hmin⟩

theorem map_rid_applyDecision {α : Type} [EntityRow α] (f : String → Option String)
    (l : List α) : (l.map (applyDecision f)).map rid = l.map rid := by
  rw [List.map_map]
  exact List.map_congr_left fun r _ => rid_applyDecision f r

theorem nodup_rid_updatePass {α : Type} [EntityRow α] (f : String → Option String)
    (l : List α) (h : (l.map rid).Nodup) : ((updatePass f l).map rid).Nodup := by
  rw [updatePass_eq_map f l h, map_rid_applyDecision]
  exact h

theorem nodup_rid_dedupTable {α : Type} [EntityRow α] (l : List α)
    (h : (l.map rid).Nodup) : ((dedupTable l).map rid).Nodup := by
  unfold dedupTable
  exact h.sublist ((List.filter_sublist l).map rid)

theorem dedupTable_subset {α : Type} [EntityRow α] (l : List α) :
    dedupTable l ⊆ l := by
  unfold dedupTable
  exact fun x hx => (List.mem_filter.mp hx).1

/-!
## Lemmas: normalization, purge and the composed table pipeline
-/

theorem normalizePass_eq_map {α : Type} [EntityRow α] (rows : List α)
    (h : (rows.map rid).Nodup) :
    normalizePass rows = rows.map fun r => setName r (normName (rname r)) := by
  unfold normalizePass
  rw [updatePass_eq_map _ _ h]
  exact List.map_congr_left fun r _ => rfl

theorem cleanTable_nodup {α : Type} [EntityRow α] (rows : List α)
    (h : (rows.map rid).Nodup) : ((cleanTable rows).map rid).Nodup := by
  unfold cleanTable purgeTable
  exact (nodup_rid_updatePass _ _ (nodup_rid_dedupTable rows h)).sublist
    ((List.filter_sublist _).map rid)

/-- Every row of the cleaned table is a deduplication survivor whose name
was rewritten to `name.strip().title()`. -/
theorem mem_cleanTable {α : Type} [EntityRow α] (rows : List α)
    (h : (rows.map rid).Nodup) (r : α) (hr : r ∈ cleanTable rows) :
    ∃ q ∈ dedupTable rows, r = setName q (normName (rname q)) := by
  unfold cleanTable purgeTable at hr
  rw [normalizePass_eq_map _ (nodup_rid_dedupTable rows h)] at hr
  have hr' := (List.mem_filter.mp hr).1
  simp only [List.mem_map] at hr'
  obtain ⟨q, hq, hqe⟩ := hr'
  exact ⟨q, hq, hqe.symm⟩

theorem cleanTable_pairwise {α : Type} [EntityRow α] (rows : List α)
    (hid : (rows.map rid).Nodup)
    (hstr : ∀ r ∈ rows, pyStrip (rname r) = rname r) :
    (cleanTable rows).Pairwise fun a b => pyLower (rname a) ≠ pyLower (rname b) := by
  unfold cleanTable purgeTable
  apply List.Pairwise.filter
  rw [normalizePass_eq_map _ (nodup_rid_dedupTable rows hid)]
  rw [List.pairwise_map]
  refine (dedupTable_pairwise rows hid).imp_of_mem ?_
  intro a b ha hb hne
  rw [rname_setName, rname_setName, pyLower_normName, pyLower_normName,
    hstr a (dedupTable_subset rows ha), hstr b (dedupTable_subset rows hb)]
  exact hne

theorem cleanTable_stripped {α : Type} [EntityRow α] (rows : List α)
    (h : (rows.map rid).Nodup) :
    ∀ r ∈ cleanTable rows, pyStrip (rname r) = rname r := by
  intro r hr
  obtain ⟨q, hq, rfl⟩ := mem_cleanTable rows h r hr
  rw [rname_setName]
  exact pyStrip_normName _

theorem cleanTable_normName {α : Type} [EntityRow α] (rows : List α)
    (h : (rows.map rid).Nodup) :
    ∀ r ∈ cleanTable rows, normName (rname r) = rname r := by
  intro r hr
  obtain ⟨q, hq, rfl⟩ := mem_cleanTable rows h r hr
  rw [rname_setName]
  exact normName_idem _

theorem cleanTable_no_sentinel {α : Type} [EntityRow α] (rows : List α) :
    ∀ r ∈ cleanTable rows,
      rname r ≠ "---" ∧ rname r ≠ "???" ∧ rname r ≠ "" := by
  intro r hr
  unfold cleanTable purgeTable at hr
  have h2 := (List.mem_filter.mp hr).2
  simpa using h2

/-- Running the dedup → normalize → purge pipeline a second time changes
nothing, provided the first run started from a table with unique ids and
stripped names. -/
theorem cleanTable_cleanTable {α : Type} [EntityRow α] (rows : List α)
    (hid : (rows.map rid).Nodup)
    (hstr : ∀ r ∈ rows, pyStrip (rname r) = rname r) :
    cleanTable (cleanTable rows) = cleanTable rows := by
  have hpair := cleanTable_pairwise rows hid hstr
  have hidc : ((cleanTable rows).map rid).Nodup := cleanTable_nodup rows hid
  have hded : dedupTable (cleanTable rows) = cleanTable rows :=
    dedupTable_eq_self _ hpair
  have hnorm : normalizePass (cleanTable rows) = cleanTable rows := by
    rw [normalizePass_eq_map _ hidc]
    rw [List.map_congr_left (g := fun r => r) (fun r hr => by
      rw [cleanTable_normName rows hid r hr]
      exact setName_rname r)]
    simp
  have hpurge : purgeTable (cleanTable rows) = cleanTable rows := by
    unfold purgeTable
    apply List.filter_eq_self.mpr
    intro r hr
    have hs := cleanTable_no_sentinel rows r hr
    simp only [decide_eq_true_eq, not_or]
    exact ⟨hs.1, hs.2.1, hs.2.2⟩
  calc cleanTable (cleanTable rows)
      = purgeTable (normalizePass (dedupTable (cleanTable rows))) := rfl
    _ = purgeTable (normalizePass (cleanTable rows)) := by rw [hded]
    _ = purgeTable (cleanTable rows) := by rw [hnorm]
    _ = cleanTable rows := hpurge

/-!
## Lemmas: the correction loop
-/

theorem gcmStep_cases (w : Array Char) (best : Option (Nat × Nat × String))
    (x : String) (t : Nat × Nat × String) (h : gcmStep w best x = some t) :
    t.2.2 = x ∨ best = some t := by
  unfold gcmStep at h
  by_cases hcut : 5 * (ratioFrac (strArr x) w).1 ≥ 4 * (ratioFrac (strArr x) w).2
  · rw [if_pos hcut] at h
    cases best with
    | none =>
      left
      cases h
      rfl
    | some b =>
      obtain ⟨bn, bd, bx⟩ := b
      have h' : (if (ratioFrac (strArr x) w).1 * bd > bn * (ratioFrac (strArr x) w).2 ∨
            ((ratioFrac (strArr x) w).1 * bd = bn * (ratioFrac (strArr x) w).2 ∧ bx < x) then
            some ((ratioFrac (strArr x) w).1, (ratioFrac (strArr x) w).2, x)
          else some (bn, bd, bx)) = some t := h
      by_cases hbeat : (ratioFrac (strArr x) w).1 * bd > bn * (ratioFrac (strArr x) w).2 ∨
          ((ratioFrac (strArr x) w).1 * bd = bn * (ratioFrac (strArr x) w).2 ∧ bx < x)
      · rw [if_pos hbeat] at h'
        left
        cases h'
        rfl
      · rw [if_neg hbeat] at h'
        right
        rw [h']
  · rw [if_neg hcut] at h
    right
    exact h

theorem foldl_gcmStep_mem (w : Array Char) (l : List String)
    (acc : Option (Nat × Nat × String)) (t : Nat × Nat × String)
    (h : l.foldl (gcmStep w) acc = some t) : t.2.2 ∈ l ∨ acc = some t := by
  induction l generalizing acc with
  | nil => exact Or.inr h
  | cons x xs ih =>
    rw [List.foldl_cons] at h
    rcases ih (gcmStep w acc x) h with hmem | hstep
    · exact Or.inl (List.mem_cons_of_mem x hmem)
    · rcases gcmStep_cases w acc x t hstep with hx | hacc
      · exact Or.inl (hx ▸ List.mem_cons_self x xs)
      · exact Or.inr hacc

/-- `get_close_matches` only returns elements of the candidate list. -/
theorem getCloseMatches1_mem (w : String) (l : List String) (x : String)
    (h : getCloseMatches1 w l = some x) : x ∈ l := by
  unfold getCloseMatches1 at h
  rw [Option.map_eq_some'] at h
  obtain ⟨t, hfold, hproj⟩ := h
  rcases foldl_gcmStep_mem (strArr w) l none t hfold with hmem | habs
  · exact hproj ▸ hmem
  · cases habs

theorem correctedName_cases (official : List String) (n m : String)
    (h : correctedName official n = some m) :
    ∃ c ∈ official, m = pyTitle c ∧
      getCloseMatches1 (pyLower (pyStrip n)) official = some c ∧
      pyLower (pyStrip n) ∉ official ∧ c ≠ pyLower (pyStrip n) := by
  unfold correctedName at h
  by_cases hk : pyLower (pyStrip n) ∈ official
  · rw [if_pos hk] at h
    cases h
  · rw [if_neg hk] at h
    cases hg : getCloseMatches1 (pyLower (pyStrip n)) official with
    | none =>
      rw [hg] at h
      cases h
    | some c =>
      rw [hg] at h
      have h' : (if c ≠ pyLower (pyStrip n) then some (pyTitle c) else none) = some m := h
      by_cases hc : c = pyLower (pyStrip n)
      · rw [if_neg fun hne => hne hc] at h'
        cases h'
      · rw [if_pos hc] at h'
        exact ⟨c, getCloseMatches1_mem _ _ _ hg, (Option.some.inj h').symm, rfl, hk, hc⟩

theorem key_normName (n : String) :
    pyLower (pyStrip (normName n)) = pyLower (pyStrip n) := by
  rw [pyStrip_normName, pyLower_normName]

/-- A name the correction loop left alone is still left alone after it has
been normalized: the correction key is unchanged. -/
theorem correctedName_normName (official : List String) (n : String)
    (h : correctedName official n = none) :
    correctedName official (normName n) = none := by
  unfold correctedName at h ⊢
  rw [key_normName]
  exact h

/-- A name the correction loop rewrote to `c.title()` (with `c` a stripped,
lower-case canonical name) is left alone on a second run: its key is `c`
itself, which is in the official list. -/
theorem correctedName_of_title (official : List String) (c : String)
    (hc : c ∈ official) (hstrip : pyStrip c = c) (hlow : pyLower c = c) :
    correctedName official (normName (pyTitle c)) = none := by
  have h1 : normName (pyTitle c) = pyTitle c := by
    unfold normName
    rw [pyStrip_pyTitle c hstrip, pyTitle_pyTitle]
  rw [h1]
  unfold correctedName
  have hk : pyLower (pyStrip (pyTitle c)) = c := by
    rw [pyStrip_pyTitle c hstrip, pyLower_pyTitle, hlow]
  rw [hk, if_pos hc]

theorem applyDecision_name_cases {α : Type} [EntityRow α] (f : String → Option String)
    (r : α) :
    (rname (applyDecision f r) = rname r ∧ f (rname r) = none) ∨
      ∃ m, f (rname r) = some m ∧ rname (applyDecision f r) = m := by
  unfold applyDecision
  cases hf : f (rname r) with
  | none => exact Or.inl ⟨rfl, rfl⟩
  | some m => exact Or.inr ⟨m, rfl, rname_setName r m⟩

theorem nodup_rid_correctPokemon (official : List String) (rows : List PokemonRow)
    (hid : (rows.map rid).Nodup) :
    ((correctPokemon official rows).map rid).Nodup :=
  nodup_rid_updatePass _ _ hid

/-- A corrected table still has stripped names, provided the original names
and the official list are stripped. -/
theorem correctPokemon_stripped (official : List String) (rows : List PokemonRow)
    (hid : (rows.map rid).Nodup)
    (hstr : ∀ r ∈ rows, pyStrip (rname r) = rname r)
    (hoff : ∀ c ∈ official, pyStrip c = c) :
    ∀ q ∈ correctPokemon official rows, pyStrip (rname q) = rname q := by
  intro q hq
  unfold correctPokemon at hq
  rw [updatePass_eq_map _ _ hid] at hq
  simp only [List.mem_map] at hq
  obtain ⟨r0, hr0, rfl⟩ := hq
  rcases applyDecision_name_cases (correctedName official) r0 with
    ⟨hname, _⟩ | ⟨m, hm, hname⟩
  · rw [hname]
    exact hstr r0 hr0
  · obtain ⟨c, hcmem, hmeq, _, _, _⟩ := correctedName_cases official _ m hm
    rw [hname, hmeq]
    exact pyStrip_pyTitle c (hoff c hcmem)

/-- Second-run correction identity: on the cleaned pokemon table every
correction decision is `none` (names that were already canonical keep their
old key, corrected names now have their canonical name as key). -/
theorem correctPokemon_cleaned (official : List String) (rows : List PokemonRow)
    (hid : (rows.map rid).Nodup)
    (hoff : ∀ c ∈ official, pyStrip c = c ∧ pyLower c = c) :
    correctPokemon official (cleanTable (correctPokemon official rows)) =
      cleanTable (correctPokemon official rows) := by
  show updatePass (correctedName official) _ = _
  apply updatePass_eq_self
  intro r hr
  have hid1 : ((correctPokemon official rows).map rid).Nodup :=
    nodup_rid_correctPokemon official rows hid
  obtain ⟨q, hq, rfl⟩ := mem_cleanTable _ hid1 r hr
  rw [rname_setName]
  have hqmem : q ∈ correctPokemon official rows := dedupTable_subset _ hq
  unfold correctPokemon at hqmem
  rw [updatePass_eq_map _ _ hid] at hqmem
  simp only [List.mem_map] at hqmem
  obtain ⟨r0, hr0, rfl⟩ := hqmem
  rcases applyDecision_name_cases (correctedName official) r0 with
    ⟨hname, hnone⟩ | ⟨m, hm, hname⟩
  · rw [hname]
    exact correctedName_normName official _ hnone
  · obtain ⟨c, hcmem, hmeq, _, _, _⟩ := correctedName_cases official _ m hm
    rw [hname, hmeq]
    obtain ⟨hcs, hcl⟩ := hoff c hcmem
    exact correctedName_of_title official c hcmem hcs hcl

/-!
## Lemmas: ingestion
-/

theorem lookupOrInsertType_frame (tname : String) (s : Store) :
    (lookupOrInsertType tname s).2.pokemon = s.pokemon ∧
    (lookupOrInsertType tname s).2.abilities = s.abilities ∧
    (lookupOrInsertType tname s).2.trainers = s.trainers ∧
    (lookupOrInsertType tname s).2.tpa = s.tpa := by
  unfold lookupOrInsertType
  cases s.types.find? fun t => pyLower t.name = pyLower tname with
  | none => exact ⟨rfl, rfl, rfl, rfl⟩
  | some t => exact ⟨rfl, rfl, rfl, rfl⟩

theorem lookupOrInsertAbility_frame (aname : String) (s : Store) :
    (lookupOrInsertAbility aname s).2.pokemon = s.pokemon ∧
    (lookupOrInsertAbility aname s).2.types = s.types ∧
    (lookupOrInsertAbility aname s).2.trainers = s.trainers ∧
    (lookupOrInsertAbility aname s).2.tpa = s.tpa := by
  unfold lookupOrInsertAbility
  cases s.abilities.find? fun t => pyLower t.name = pyLower aname with
  | none => exact ⟨rfl, rfl, rfl, rfl⟩
  | some t => exact ⟨rfl, rfl, rfl, rfl⟩

theorem resolveTypes_frame (names : List String) (s : Store) :
    (resolveTypes names s).2.pokemon = s.pokemon ∧
    (resolveTypes names s).2.abilities = s.abilities ∧
    (resolveTypes names s).2.trainers = s.trainers ∧
    (resolveTypes names s).2.tpa = s.tpa := by
  induction names generalizing s with
  | nil => exact ⟨rfl, rfl, rfl, rfl⟩
  | cons n rest ih =>
    obtain ⟨h1, h2, h3, h4⟩ := lookupOrInsertType_frame (pyLower (pyStrip n)) s
    obtain ⟨g1, g2, g3, g4⟩ := ih (lookupOrInsertType (pyLower (pyStrip n)) s).2
    exact ⟨g1.trans h1, g2.trans h2, g3.trans h3, g4.trans h4⟩

theorem upsertPokemon_frame (pname : String) (t1 t2 : Option Nat) (s : Store) :
    (upsertPokemon pname t1 t2 s).2.types = s.types ∧
    (upsertPokemon pname t1 t2 s).2.abilities = s.abilities ∧
    (upsertPokemon pname t1 t2 s).2.trainers = s.trainers ∧
    (upsertPokemon pname t1 t2 s).2.tpa = s.tpa := by
  unfold upsertPokemon
  cases s.pokemon.find? fun p => pyLower p.name = pyLower pname with
  | none => exact ⟨rfl, rfl, rfl, rfl⟩
  | some p => exact ⟨rfl, rfl, rfl, rfl⟩

/-- The creature upsert leaves a row carrying exactly the two requested type
slots, whose name matches the requested name case-insensitively. -/
theorem upsertPokemon_mem (pname : String) (t1 t2 : Option Nat) (s : Store) :
    ∃ p ∈ (upsertPokemon pname t1 t2 s).2.pokemon,
      p.type1_id = t1 ∧ p.type2_id = t2 ∧ pyLower p.name = pyLower pname := by
  unfold upsertPokemon
  cases hf : s.pokemon.find? fun p => pyLower p.name = pyLower pname with
  | some p =>
    refine ⟨{ p with type1_id := t1, type2_id := t2 }, ?_, rfl, rfl, ?_⟩
    · exact List.mem_map.mpr ⟨p, List.mem_of_find?_eq_some hf, by rw [if_pos rfl]⟩
    · show pyLower p.name = pyLower pname
      simpa using List.find?_some hf
  | none =>
    refine ⟨⟨nextRowId (s.pokemon.map fun p => p.id), pyTitle pname, t1, t2⟩,
      ?_, rfl, rfl, ?_⟩
    · simp
    · exact pyLower_pyTitle pname

theorem linkOne_none (pick : List Row → Option Nat) (pid : Nat) (a : String)
    (s : Store) (ht : s.trainers = []) (hp : pick [] = none) :
    linkOne pick pid a s = none := by
  unfold linkOne
  rw [(lookupOrInsertAbility_frame (pyLower (pyStrip a)) s).2.2.1, ht, hp]

theorem linkOne_some (pick : List Row → Option Nat) (pid : Nat) (a : String)
    (s : Store) (T : List Row) (tid : Nat) (ht : s.trainers = T)
    (hp : pick T = some tid) :
    ∃ lid s2, linkOne pick pid a s = some (lid, s2) ∧
      s2.trainers = T ∧ s2.pokemon = s.pokemon := by
  unfold linkOne
  rw [(lookupOrInsertAbility_frame (pyLower (pyStrip a)) s).2.2.1, ht, hp]
  refine ⟨_, _, rfl, ?_, ?_⟩
  · exact ((lookupOrInsertAbility_frame (pyLower (pyStrip a)) s).2.2.1).trans ht
  · exact (lookupOrInsertAbility_frame (pyLower (pyStrip a)) s).1

/-- When a trainer can be drawn, the ability loop succeeds, never touches
the `trainers` table and leaves the `pokemon` table unchanged. -/
theorem linkAbilities_ok (pick : List Row → Option Nat) (pid : Nat)
    (anames : List String) (T : List Row) (tid : Nat) (hp : pick T = some tid) :
    ∀ s : Store, s.trainers = T →
      ∃ ids s', linkAbilities pick pid anames s = some (ids, s') ∧
        s'.trainers = T ∧ s'.pokemon = s.pokemon := by
  induction anames with
  | nil => exact fun s hs => ⟨[], s, rfl, hs, rfl⟩
  | cons a rest ih =>
    intro s hs
    obtain ⟨lid, s2, hone, htr2, hpok2⟩ := linkOne_some pick pid a s T tid hs hp
    obtain ⟨ids, s', hlink, htr', hpok'⟩ := ih s2 htr2
    refine ⟨lid :: ids, s', ?_, htr', hpok'.trans hpok2⟩
    show (match linkOne pick pid a s with
      | none => none
      | some ls =>
        match linkAbilities pick pid rest ls.2 with
        | none => none
        | some q => some (ls.1 :: q.1, q.2)) = some (lid :: ids, s')
    rw [hone]
    show (match linkAbilities pick pid rest s2 with
      | none => none
      | some q => some (lid :: q.1, q.2)) = some (lid :: ids, s')
    rw [hlink]

/-- Dedup of a two-row table whose names agree case-insensitively: the row
with the smaller id survives. -/
theorem dedupTable_pair_min (a b : PokemonRow)
    (hkey : pyLower (rname a) = pyLower (rname b)) (hab : rid a ≠ rid b) :
    dedupTable [a, b] = if rid a ≤ rid b then [a] else [b] := by
  have hmin : minIdOf [a, b] (pyLower (rname a)) = some (min (rid a) (rid b)) := by
    unfold minIdOf
    simp [List.filter_cons, hkey, List.min?_cons]
  have hminb : minIdOf [a, b] (pyLower (rname b)) = some (min (rid a) (rid b)) := by
    rw [← hkey]
    exact hmin
  have hpred : ∀ r : PokemonRow,
      (([a, b] : List PokemonRow).any fun r' =>
        minIdOf [a, b] (pyLower (rname r')) = some (rid r))
        = decide (min (rid a) (rid b) = rid r) := by
    intro r
    simp only [List.any_cons, List.any_nil, Bool.or_false, hmin, hminb,
      Option.some.injEq, Bool.or_self]
  unfold dedupTable
  rcases Nat.lt_or_gt_of_ne hab with h | h
  · rw [if_pos (Nat.le_of_lt h)]
    rw [List.filter_congr fun r _ => hpred r, Nat.min_eq_left (Nat.le_of_lt h)]
    simp [List.filter_cons, Nat.ne_of_lt h]
  · rw [if_neg (by omega)]
    rw [List.filter_congr fun r _ => hpred r, Nat.min_eq_right (Nat.le_of_lt h)]
    simp [List.filter_cons, Nat.ne_of_lt h]

theorem normalizePass_singleton (r : PokemonRow) :
    normalizePass [r] = [setName r (normName (rname r))] := by
  rw [normalizePass_eq_map _ (by simp)]
  rfl

/-!
## The claims
-/

/-- C6: for every initial store and canonical list, after the reconciliation
pass no row of any of the four entity tables has a sentinel name
(`"---"`, `"???"` or `""`): the purge is the last stage of the pipeline and
nothing rewrites names after it. -/
theorem c6_purge_invariant (official : List String) (s : Store) :
    (∀ r ∈ (cleanDatabase official s).pokemon,
      r.name ≠ "---" ∧ r.name ≠ "???" ∧ r.name ≠ "") ∧
    (∀ r ∈ (cleanDatabase official s).types,
      r.name ≠ "---" ∧ r.name ≠ "???" ∧ r.name ≠ "") ∧
    (∀ r ∈ (cleanDatabase official s).abilities,
      r.name ≠ "---" ∧ r.name ≠ "???" ∧ r.name ≠ "") ∧
    (∀ r ∈ (cleanDatabase official s).trainers,
      r.name ≠ "---" ∧ r.name ≠ "???" ∧ r.name ≠ "") :=
  ⟨cleanTable_no_sentinel _, cleanTable_no_sentinel _,
    cleanTable_no_sentinel _, cleanTable_no_sentinel _⟩

/-- Store used to witness C6 at a concrete input. -/
def c6Store : Store := ⟨[⟨1, "Pikachu", none, none⟩], [⟨1, "---"⟩], [], [], []⟩

theorem c6_witness :
    (⟨1, "Pikachu", none, none⟩ : PokemonRow) ∈ (cleanDatabase [] c6Store).pokemon ∧
    ((⟨1, "Pikachu", none, none⟩ : PokemonRow).name ≠ "---" ∧
      (⟨1, "Pikachu", none, none⟩ : PokemonRow).name ≠ "???" ∧
      (⟨1, "Pikachu", none, none⟩ : PokemonRow).name ≠ "") :=
  ⟨by decide, (c6_purge_invariant [] c6Store).1 _ (by decide)⟩

/-- C7: the creatures-by-type query responds identically to `"fire"` and
`"FIRE"` on every store: the SQL compares `LOWER(t.name)` with
`LOWER(?)`, and the two parameters have the same lower-casing, so even the
result lists (not just their underlying sets) coincide. -/
theorem c7_query_case_insensitive (s : Store) :
    getPokemonByType s "fire" = getPokemonByType s "FIRE" := by
  unfold getPokemonByType
  rw [show pyLower "FIRE" = pyLower "fire" from by decide]

/-- C9: the reconciliation pass never creates, updates or deletes a row of
the `trainer_pokemon_abilities` association table — `clean_database`
contains no statement against that table, so its contents carry over
unchanged. -/
theorem c9_frame_tpa (official : List String) (s : Store) :
    (cleanDatabase official s).tpa = s.tpa := rfl

/-- C5: when the trainers table is empty and at least one ability is
declared, `create_pokemon` hits the `SELECT id FROM trainers ORDER BY
RANDOM() LIMIT 1` miss (`pick [] = none` models that an empty table returns
no row), rolls the transaction back — the returned store is the original
one, so no Type/Ability/Creature/Link insert persists — and reports the
explicit no-trainers error (HTTP 500). -/
theorem c5_no_trainers_rollback (pick : List Row → Option Nat) (d : PokeDetail)
    (pname : String) (s : Store) (ht : s.trainers = []) (hne : d.abilities ≠ [])
    (hp : pick [] = none) :
    createPokemon pick (some d) pname s = (.error .noTrainers, s) := by
  have htr2 : (upsertPokemon pname (resolveTypes d.types s).1[0]?
      (resolveTypes d.types s).1[1]? (resolveTypes d.types s).2).2.trainers = [] :=
    ((upsertPokemon_frame _ _ _ _).2.2.1).trans
      (((resolveTypes_frame _ _).2.2.1).trans ht)
  have hlink : linkAbilities pick
      (upsertPokemon pname (resolveTypes d.types s).1[0]?
        (resolveTypes d.types s).1[1]? (resolveTypes d.types s).2).1 d.abilities
      (upsertPokemon pname (resolveTypes d.types s).1[0]?
        (resolveTypes d.types s).1[1]? (resolveTypes d.types s).2).2 = none := by
    cases habil : d.abilities with
    | nil => exact absurd habil hne
    | cons a rest =>
      show (match linkOne pick (upsertPokemon pname (resolveTypes d.types s).1[0]?
          (resolveTypes d.types s).1[1]? (resolveTypes d.types s).2).1 a
          (upsertPokemon pname (resolveTypes d.types s).1[0]?
            (resolveTypes d.types s).1[1]? (resolveTypes d.types s).2).2 with
        | none => none
        | some ls =>
          match linkAbilities pick (upsertPokemon pname (resolveTypes d.types s).1[0]?
              (resolveTypes d.types s).1[1]? (resolveTypes d.types s).2).1 rest ls.2 with
          | none => none
          | some q => some (ls.1 :: q.1, q.2)) = none
      rw [linkOne_none pick _ a _ htr2 hp]
  show (match linkAbilities pick (upsertPokemon pname (resolveTypes d.types s).1[0]?
      (resolveTypes d.types s).1[1]? (resolveTypes d.types s).2).1 d.abilities
      (upsertPokemon pname (resolveTypes d.types s).1[0]?
        (resolveTypes d.types s).1[1]? (resolveTypes d.types s).2).2 with
    | none => ((Except.error CreateError.noTrainers : Except CreateError (List Nat)), s)
    | some q => (Except.ok q.1, q.2)) = (Except.error CreateError.noTrainers, s)
  rw [hlink]

theorem c5_witness :
    (⟨[], [], [], [], []⟩ : Store).trainers = [] ∧
    (⟨["electric"], ["static"]⟩ : PokeDetail).abilities ≠ [] ∧
    createPokemon (fun ts => ts.head?.map fun t => t.id)
        (some ⟨["electric"], ["static"]⟩) "pikachu" ⟨[], [], [], [], []⟩
      = (.error .noTrainers, ⟨[], [], [], [], []⟩) :=
  ⟨rfl, by decide,
    c5_no_trainers_rollback _ _ _ _ rfl (by decide) rfl⟩

/-- C10: when the fetched detail declares zero abilities, the ability loop
never runs, so the no-trainers check is never reached: `create_pokemon`
commits (even with an empty trainers table) and returns the empty list of
created link ids. -/
theorem c10_zero_abilities_commit (pick : List Row → Option Nat) (d : PokeDetail)
    (pname : String) (s : Store) (h : d.abilities = []) :
    ∃ s', createPokemon pick (some d) pname s = (.ok [], s') := by
  refine ⟨(upsertPokemon pname (resolveTypes d.types s).1[0]?
    (resolveTypes d.types s).1[1]? (resolveTypes d.types s).2).2, ?_⟩
  show (match linkAbilities pick (upsertPokemon pname (resolveTypes d.types s).1[0]?
      (resolveTypes d.types s).1[1]? (resolveTypes d.types s).2).1 d.abilities
      (upsertPokemon pname (resolveTypes d.types s).1[0]?
        (resolveTypes d.types s).1[1]? (resolveTypes d.types s).2).2 with
    | none => ((Except.error CreateError.noTrainers : Except CreateError (List Nat)), s)
    | some q => (Except.ok q.1, q.2))
    = (Except.ok [], (upsertPokemon pname (resolveTypes d.types s).1[0]?
      (resolveTypes d.types s).1[1]? (resolveTypes d.types s).2).2)
  rw [h]
  rfl

theorem c10_witness :
    (⟨["electric"], []⟩ : PokeDetail).abilities = [] ∧
    (⟨[], [], [], [], []⟩ : Store).trainers = [] ∧
    ∃ s', createPokemon (fun ts => ts.head?.map fun t => t.id)
        (some ⟨["electric"], []⟩) "pikachu" ⟨[], [], [], [], []⟩ = (.ok [], s') :=
  ⟨rfl, rfl, c10_zero_abilities_commit _ _ _ _ rfl⟩

/-- C8: when three (or more) types are declared, only the ids resolved for
the first two declared types are recorded in the creature's
`(type1_id, type2_id)` slots — they equal what resolving just the first two
types would produce — and the call succeeds without error (given a trainer
can be drawn for the declared abilities). -/
theorem c8_two_type_slots (pick : List Row → Option Nat) (d : PokeDetail)
    (pname : String) (s : Store) (t1 t2 t3 : String) (ts : List String)
    (htypes : d.types = t1 :: t2 :: t3 :: ts) (tid : Nat)
    (hp : pick s.trainers = some tid) :
    ∃ ids s', createPokemon pick (some d) pname s = (.ok ids, s') ∧
      ∃ p ∈ s'.pokemon, pyLower p.name = pyLower pname ∧
        p.type1_id = (resolveTypes [t1, t2] s).1[0]? ∧
        p.type2_id = (resolveTypes [t1, t2] s).1[1]? := by
  have hpre0 : (resolveTypes d.types s).1[0]? = (resolveTypes [t1, t2] s).1[0]? := by
    rw [htypes]
    simp only [resolveTypes, List.getElem?_cons_zero]
  have hpre1 : (resolveTypes d.types s).1[1]? = (resolveTypes [t1, t2] s).1[1]? := by
    rw [htypes]
    simp only [resolveTypes, List.getElem?_cons_succ, List.getElem?_cons_zero]
  have hutr : (upsertPokemon pname (resolveTypes d.types s).1[0]?
      (resolveTypes d.types s).1[1]? (resolveTypes d.types s).2).2.trainers
      = s.trainers :=
    ((upsertPokemon_frame _ _ _ _).2.2.1).trans ((resolveTypes_frame _ _).2.2.1)
  obtain ⟨ids, s', hlink, htr', hpok'⟩ :=
    linkAbilities_ok pick (upsertPokemon pname (resolveTypes d.types s).1[0]?
        (resolveTypes d.types s).1[1]? (resolveTypes d.types s).2).1 d.abilities
      s.trainers tid hp
      (upsertPokemon pname (resolveTypes d.types s).1[0]?
        (resolveTypes d.types s).1[1]? (resolveTypes d.types s).2).2 hutr
  refine ⟨ids, s', ?_, ?_⟩
  · show (match linkAbilities pick (upsertPokemon pname (resolveTypes d.types s).1[0]?
        (resolveTypes d.types s).1[1]? (resolveTypes d.types s).2).1 d.abilities
        (upsertPokemon pname (resolveTypes d.types s).1[0]?
          (resolveTypes d.types s).1[1]? (resolveTypes d.types s).2).2 with
      | none => ((Except.error CreateError.noTrainers : Except CreateError (List Nat)), s)
      | some q => (Except.ok q.1, q.2)) = (Except.ok ids, s')
    rw [hlink]
  · obtain ⟨p, hpmem, hpt1, hpt2, hplow⟩ := upsertPokemon_mem pname
      (resolveTypes d.types s).1[0]? (resolveTypes d.types s).1[1]?
      (resolveTypes d.types s).2
    refine ⟨p, ?_, hplow, ?_, ?_⟩
    · rw [hpok']
      exact hpmem
    · rw [hpt1, hpre0]
    · rw [hpt2, hpre1]

theorem c8_witness :
    ∃ ids s', createPokemon (fun ts => ts.head?.map fun t => t.id)
        (some ⟨["grass", "poison", "flying"], []⟩) "bulbasaur"
        ⟨[], [], [], [⟨1, "Ash"⟩], []⟩ = (.ok ids, s') ∧
      ∃ p ∈ s'.pokemon, pyLower p.name = pyLower "bulbasaur" ∧
        p.type1_id = (resolveTypes ["grass", "poison"]
          ⟨[], [], [], [⟨1, "Ash"⟩], []⟩).1[0]? ∧
        p.type2_id = (resolveTypes ["grass", "poison"]
          ⟨[], [], [], [⟨1, "Ash"⟩], []⟩).1[1]? :=
  c8_two_type_slots _ _ _ _ "grass" "poison" "flying" [] rfl 1 rfl

theorem dedupTable_singleton {α : Type} [EntityRow α] (r : α) :
    dedupTable [r] = [r] :=
  dedupTable_eq_self [r] (by simp)

theorem purgeTable_singleton {α : Type} [EntityRow α] (r : α)
    (h : ¬(rname r = "---" ∨ rname r = "???" ∨ rname r = "")) :
    purgeTable [r] = [r] := by
  unfold purgeTable
  apply List.filter_eq_self.mpr
  intro x hx
  simp only [List.mem_singleton] at hx
  subst hx
  exact decide_eq_true h

/-- Store of the C1 counterexample: two creature rows whose names differ
only by leading whitespace, ids 1 and 2. -/
def c1Store : Store :=
  ⟨[⟨1, "abc", none, none⟩, ⟨2, " abc", none, none⟩], [], [], [], []⟩

/-- C1, counterexample: with an empty canonical list (a permitted fetch
outcome) and creature rows `"abc"` / `" abc"`, one pass leaves two rows both
named `"Abc"` (dedup groups by `LOWER(name)` without trimming, and the
trimming normalization runs only afterwards), while a second pass deletes
one of them — so running `clean_database` twice does not yield the same
table contents as running it once. -/
theorem c1_counterexample :
    (cleanDatabase [] (cleanDatabase [] c1Store)).pokemon ≠
      (cleanDatabase [] c1Store).pokemon := by decide

/-- C1 (amended): running the reconciliation pass twice yields exactly the
same four entity tables as running it once, provided no two rows of a table
share an id (the primary-key guarantee), every stored name has no
surrounding whitespace, every stored and canonical name is ASCII (outside
ASCII the pass is genuinely not idempotent: SQLite `LOWER` used by dedup
folds ASCII only while Python `title()` folds Unicode, so rows `'ä'`/`'Ä'`
with distinct ids and no surrounding whitespace become duplicate `'Ä'` rows
that only a second pass deletes), and the canonical list contains only
stripped lower-case names (the §4.1 adapter contract: `fetchCanonicalNames`
returns lower-case names). -/
theorem c1_idempotent (official : List String) (s : Store)
    (hpok : (s.pokemon.map rid).Nodup) (hty : (s.types.map rid).Nodup)
    (hab : (s.abilities.map rid).Nodup) (htr : (s.trainers.map rid).Nodup)
    (hpokn : ∀ r ∈ s.pokemon, pyStrip (rname r) = rname r)
    (htyn : ∀ r ∈ s.types, pyStrip (rname r) = rname r)
    (habn : ∀ r ∈ s.abilities, pyStrip (rname r) = rname r)
    (htrn : ∀ r ∈ s.trainers, pyStrip (rname r) = rname r)
    (hpoka : ∀ r ∈ s.pokemon, asciiStr (rname r) = true)
    (htya : ∀ r ∈ s.types, asciiStr (rname r) = true)
    (haba : ∀ r ∈ s.abilities, asciiStr (rname r) = true)
    (htra : ∀ r ∈ s.trainers, asciiStr (rname r) = true)
    (hoffa : ∀ c ∈ official, asciiStr c = true)
    (hoff : ∀ c ∈ official, pyStrip c = c ∧ pyLower c = c) :
    cleanDatabase official (cleanDatabase official s) = cleanDatabase official s := by
  unfold cleanDatabase
  simp only [Store.mk.injEq]
  refine ⟨?_, ?_, ?_, ?_, trivial⟩
  · show cleanTable (correctPokemon official
        (cleanTable (correctPokemon official s.pokemon)))
      = cleanTable (correctPokemon official s.pokemon)
    rw [correctPokemon_cleaned official s.pokemon hpok hoff]
    exact cleanTable_cleanTable _ (nodup_rid_correctPokemon official s.pokemon hpok)
      (correctPokemon_stripped official s.pokemon hpok hpokn fun c hc => (hoff c hc).1)
  · exact cleanTable_cleanTable _ hty htyn
  · exact cleanTable_cleanTable _ hab habn
  · exact cleanTable_cleanTable _ htr htrn

/-- Store used to witness the amended C1 at a concrete input. -/
def c1WitnessStore : Store :=
  ⟨[⟨1, "pikachu", none, none⟩, ⟨2, "Bulbasaur", some 1, none⟩],
    [⟨1, "Fire"⟩], [⟨1, "Static"⟩], [⟨1, "Ash"⟩], [⟨1, 1, 1, 1⟩]⟩

theorem c1_witness :
    cleanDatabase ["pikachu"] (cleanDatabase ["pikachu"] c1WitnessStore) =
      cleanDatabase ["pikachu"] c1WitnessStore :=
  c1_idempotent ["pikachu"] c1WitnessStore (by decide) (by decide) (by decide)
    (by decide) (by decide) (by decide) (by decide) (by decide) (by decide)
    (by decide) (by decide) (by decide) (by decide) (by decide)

/-- Store of the C2 counterexample (same shape as the C1 one). -/
def c2Store : Store :=
  ⟨[⟨1, "abc", none, none⟩, ⟨2, " abc", none, none⟩], [], [], [], []⟩

/-- C2, counterexample: after the pass on `c2Store` (empty canonical list),
the creature table holds two distinct rows both named `"Abc"` — two rows of
the same entity table with names equal under case-insensitive comparison. -/
theorem c2_counterexample :
    ∃ r1 ∈ (cleanDatabase [] c2Store).pokemon,
      ∃ r2 ∈ (cleanDatabase [] c2Store).pokemon,
        r1.id ≠ r2.id ∧ pyLower r1.name = pyLower r2.name :=
  ⟨⟨1, "Abc", none, none⟩, by decide, ⟨2, "Abc", none, none⟩, by decide,
    by decide, by decide⟩

/-- C2 (amended): after the reconciliation pass, no two rows of the same
entity table have names equal under case-insensitive comparison, provided no
two rows of a table share an id, all stored and canonical names have no
surrounding whitespace, and all stored and canonical names are ASCII
(outside ASCII the invariant genuinely fails: dedup's ASCII-only SQLite
`LOWER` keeps rows `'ä'`/`'Ä'` as separate groups and Python `title()`
then renames both to `'Ä'`, leaving two rows with identical names). -/
theorem c2_dedup_invariant (official : List String) (s : Store)
    (hpok : (s.pokemon.map rid).Nodup) (hty : (s.types.map rid).Nodup)
    (hab : (s.abilities.map rid).Nodup) (htr : (s.trainers.map rid).Nodup)
    (hpokn : ∀ r ∈ s.pokemon, pyStrip (rname r) = rname r)
    (htyn : ∀ r ∈ s.types, pyStrip (rname r) = rname r)
    (habn : ∀ r ∈ s.abilities, pyStrip (rname r) = rname r)
    (htrn : ∀ r ∈ s.trainers, pyStrip (rname r) = rname r)
    (hpoka : ∀ r ∈ s.pokemon, asciiStr (rname r) = true)
    (htya : ∀ r ∈ s.types, asciiStr (rname r) = true)
    (haba : ∀ r ∈ s.abilities, asciiStr (rname r) = true)
    (htra : ∀ r ∈ s.trainers, asciiStr (rname r) = true)
    (hoffa : ∀ c ∈ official, asciiStr c = true)
    (hoff : ∀ c ∈ official, pyStrip c = c) :
    (cleanDatabase official s).pokemon.Pairwise
      (fun a b => pyLower a.name ≠ pyLower b.name) ∧
    (cleanDatabase official s).types.Pairwise
      (fun a b => pyLower a.name ≠ pyLower b.name) ∧
    (cleanDatabase official s).abilities.Pairwise
      (fun a b => pyLower a.name ≠ pyLower b.name) ∧
    (cleanDatabase official s).trainers.Pairwise
      (fun a b => pyLower a.name ≠ pyLower b.name) := by
  refine ⟨?_, ?_, ?_, ?_⟩
  · show (cleanTable (correctPokemon official s.pokemon)).Pairwise _
    exact cleanTable_pairwise _ (nodup_rid_correctPokemon official s.pokemon hpok)
      (correctPokemon_stripped official s.pokemon hpok hpokn hoff)
  · exact cleanTable_pairwise _ hty htyn
  · exact cleanTable_pairwise _ hab habn
  · exact cleanTable_pairwise _ htr htrn

/-- Store used to witness the amended C2 at a concrete input. -/
def c2WitnessStore : Store :=
  ⟨[⟨1, "pikachu", none, none⟩, ⟨2, "PIKACHU", none, none⟩],
    [⟨1, "Fire"⟩, ⟨2, "fire"⟩], [⟨1, "Static"⟩], [⟨1, "Ash"⟩], []⟩

theorem c2_witness :
    (cleanDatabase ["pikachu"] c2WitnessStore).pokemon.Pairwise
      (fun a b => pyLower a.name ≠ pyLower b.name) :=
  (c2_dedup_invariant ["pikachu"] c2WitnessStore (by decide) (by decide) (by decide)
    (by decide) (by decide) (by decide) (by decide) (by decide) (by decide)
    (by decide) (by decide) (by decide) (by decide) (by decide)).1

/-- Store of the C3 counterexample: the spec's scenario verbatim —
`"pikachu"` (id 1) and `"Pikachu "` with a trailing space (id 2). -/
def c3Store : Store :=
  ⟨[⟨1, "pikachu", none, none⟩, ⟨2, "Pikachu ", none, none⟩], [], [], [], []⟩

/-- C3, counterexample: on the spec's own scenario the pass leaves **two**
rows named `"Pikachu"` (ids 1 and 2), not exactly one with the smaller id:
`LOWER('pikachu') ≠ LOWER('Pikachu ')` because dedup does not trim, and the
trimming normalization runs after dedup. -/
theorem c3_counterexample :
    ((cleanDatabase ["pikachu"] c3Store).pokemon.map fun r => (r.id, r.name))
        = [(1, "Pikachu"), (2, "Pikachu")] ∧
    ((cleanDatabase ["pikachu"] c3Store).pokemon.filter
        fun r => r.name = "Pikachu").length ≠ 1 := by
  constructor <;> decide

/-- C3 (amended): the scenario does hold when the second row has no trailing
space: if the creature table is exactly `"pikachu"` (id `i`) and `"Pikachu"`
(id `j`), `i ≠ j`, and `"pikachu"` is canonical, the pass leaves exactly one
creature row, named `"Pikachu"`, with id `min i j` — the smaller of the two
original ids. -/
theorem c3_pair_scenario (official : List String) (s : Store) (i j : Nat)
    (o1 o2 o3 o4 : Option Nat)
    (hpok : s.pokemon = [⟨i, "pikachu", o1, o2⟩, ⟨j, "Pikachu", o3, o4⟩])
    (hij : i ≠ j) (hoff : "pikachu" ∈ official) :
    ((cleanDatabase official s).pokemon.map fun r => (r.id, r.name))
      = [(min i j, "Pikachu")] := by
  show ((cleanTable (correctPokemon official s.pokemon)).map fun r => (r.id, r.name))
    = [(min i j, "Pikachu")]
  rw [hpok]
  have hcorr : correctPokemon official
      [⟨i, "pikachu", o1, o2⟩, ⟨j, "Pikachu", o3, o4⟩]
      = [⟨i, "pikachu", o1, o2⟩, ⟨j, "Pikachu", o3, o4⟩] := by
    apply updatePass_eq_self
    intro r hr
    simp only [List.mem_cons, List.not_mem_nil, or_false] at hr
    rcases hr with rfl | rfl
    · show correctedName official "pikachu" = none
      unfold correctedName
      rw [show pyLower (pyStrip "pikachu") = "pikachu" from by decide, if_pos hoff]
    · show correctedName official "Pikachu" = none
      unfold correctedName
      rw [show pyLower (pyStrip "Pikachu") = "pikachu" from by decide, if_pos hoff]
  rw [hcorr]
  show ((purgeTable (normalizePass (dedupTable
      ([⟨i, "pikachu", o1, o2⟩, ⟨j, "Pikachu", o3, o4⟩] : List PokemonRow)))).map
      fun r => (r.id, r.name))
    = [(min i j, "Pikachu")]
  have hkpair : pyLower (rname (⟨i, "pikachu", o1, o2⟩ : PokemonRow))
      = pyLower (rname (⟨j, "Pikachu", o3, o4⟩ : PokemonRow)) :=
    (by decide : pyLower "pikachu" = pyLower "Pikachu")
  have hni : normName (rname (⟨i, "pikachu", o1, o2⟩ : PokemonRow)) = "Pikachu" :=
    (by decide : normName "pikachu" = "Pikachu")
  have hnj : normName (rname (⟨j, "Pikachu", o3, o4⟩ : PokemonRow)) = "Pikachu" :=
    (by decide : normName "Pikachu" = "Pikachu")
  have hps : ¬(("Pikachu" : String) = "---" ∨ ("Pikachu" : String) = "???" ∨
      ("Pikachu" : String) = "") := by decide
  rw [dedupTable_pair_min _ _ hkpair hij]
  show (List.map (fun r => (r.id, r.name)) (purgeTable (normalizePass
      (if i ≤ j then [(⟨i, "pikachu", o1, o2⟩ : PokemonRow)]
        else [⟨j, "Pikachu", o3, o4⟩]))))
    = [(min i j, "Pikachu")]
  rcases Nat.lt_or_gt_of_ne hij with h | h
  · rw [if_pos (Nat.le_of_lt h),
      normalizePass_singleton, hni, purgeTable_singleton _ hps,
      show min i j = i from by omega]
    rfl
  · rw [if_neg (show ¬(i ≤ j) from by omega),
      normalizePass_singleton, hnj, purgeTable_singleton _ hps,
      show min i j = j from by omega]
    rfl

/-- Store used to witness the amended C3 at a concrete input. -/
def c3WitnessStore : Store :=
  ⟨[⟨1, "pikachu", none, none⟩, ⟨5, "Pikachu", none, none⟩], [], [], [], []⟩

theorem c3_witness :
    ((cleanDatabase ["pikachu"] c3WitnessStore).pokemon.map fun r => (r.id, r.name))
      = [(min 1 5, "Pikachu")] :=
  c3_pair_scenario ["pikachu"] c3WitnessStore 1 5 none none none none rfl
    (by decide) (by decide)

/-- C4: if the canonical list contains `"pikachu"` but not `"pikuchu"`, the
best close match of the key `"pikuchu"` at the fixed 0.8 cutoff is
`"pikachu"` (the `getCloseMatches1 … = some "pikachu"` hypothesis), and the
creature table holds the single row `"Pikuchu"`, then after the
reconciliation pass that row's name is `"Pikachu"`: the correction loop
rewrites it to the title-cased canonical match and deduplication,
normalization and the purge keep it unchanged. -/
theorem c4_correction_monotonicity (official : List String) (s : Store)
    (i : Nat) (o1 o2 : Option Nat)
    (hpok : s.pokemon = [⟨i, "Pikuchu", o1, o2⟩])
    (hmem : "pikachu" ∈ official)
    (hnot : "pikuchu" ∉ official)
    (hbest : getCloseMatches1 "pikuchu" official = some "pikachu") :
    (cleanDatabase official s).pokemon = [⟨i, "Pikachu", o1, o2⟩] := by
  show cleanTable (correctPokemon official s.pokemon) = [⟨i, "Pikachu", o1, o2⟩]
  rw [hpok]
  have hdec : correctedName official
      (rname (⟨i, "Pikuchu", o1, o2⟩ : PokemonRow)) = some "Pikachu" := by
    show correctedName official "Pikuchu" = some "Pikachu"
    unfold correctedName
    rw [show pyLower (pyStrip "Pikuchu") = "pikuchu" from by decide]
    rw [if_neg hnot, hbest]
    show (if "pikachu" ≠ "pikuchu" then some (pyTitle "pikachu") else none)
      = some "Pikachu"
    rw [if_pos (by decide)]
    decide
  have hcorr : correctPokemon official [(⟨i, "Pikuchu", o1, o2⟩ : PokemonRow)]
      = [⟨i, "Pikachu", o1, o2⟩] := by
    unfold correctPokemon
    rw [updatePass_eq_map _ _ (by simp)]
    show [applyDecision (correctedName official) (⟨i, "Pikuchu", o1, o2⟩ : PokemonRow)]
      = [⟨i, "Pikachu", o1, o2⟩]
    unfold applyDecision
    rw [hdec]
    rfl
  rw [hcorr]
  show purgeTable (normalizePass (dedupTable [(⟨i, "Pikachu", o1, o2⟩ : PokemonRow)]))
    = [⟨i, "Pikachu", o1, o2⟩]
  rw [dedupTable_singleton, normalizePass_singleton,
    show normName (rname (⟨i, "Pikachu", o1, o2⟩ : PokemonRow)) = "Pikachu" from
      (by decide : normName "Pikachu" = "Pikachu"),
    purgeTable_singleton _ (by decide : ¬(("Pikachu" : String) = "---" ∨
      ("Pikachu" : String) = "???" ∨ ("Pikachu" : String) = ""))]
  rfl

/-- Store used to witness C4 at a concrete input. -/
def c4Store : Store :=
  ⟨[⟨7, "Pikuchu", some 1, none⟩], [⟨1, "Electric"⟩], [], [], []⟩

theorem c4_witness :
    "pikachu" ∈ ["pikachu"] ∧ "pikuchu" ∉ ["pikachu"] ∧
    getCloseMatches1 "pikuchu" ["pikachu"] = some "pikachu" ∧
    (cleanDatabase ["pikachu"] c4Store).pokemon = [⟨7, "Pikachu", some 1, none⟩] :=
  ⟨by decide, by decide, by decide,
    c4_correction_monotonicity ["pikachu"] c4Store 7 (some 1) none rfl (by decide)
      (by decide) (by decide)⟩
